import Mathlib

/-
Shallow embedding of src/inventory_system.py.

The program keeps a global dictionary `stock_data` mapping item names
(strings) to integer quantities.  We model the dictionary as an
association list `Inv := List (String × Int)` in insertion order, which is
exactly the iteration order of a Python dict: assigning to an existing key
keeps its position, assigning a new key appends it at the end, and `del`
removes the binding.  Well-formed Python dictionaries never contain a
duplicate key, so theorems that depend on key uniqueness carry a
`(inv.map Prod.fst).Nodup` hypothesis.

Python run-time values that reach the `isinstance` validation of
`add_item` are modelled by `PyVal` (a string, an integer, or any other
value).  Diagnostics emitted through the `logging` module are modelled by
the `Severity` of the one log call each branch performs.  The timestamp
prefix produced by `datetime.now()` is abstracted away from log entries:
an entry is modelled by its message text, which is all the claims depend
on.
-/

namespace InventorySystem

/-- Python values as far as the validation in `add_item` distinguishes
them: a `str`, an `int`, or any other value (`other`). -/
inductive PyVal
  | str (s : String)
  | int (n : Int)
  | other

/-- Severity of the single `logging` call a branch performs. -/
inductive Severity
  | info
  | warning
  | error

/-- The global `stock_data` dictionary: item name to quantity, in
insertion order. -/
abbrev Inv := List (String × Int)

/-- `stock_data.get(item, 0)`: the value bound to `item`, or `0` when the
key is absent. -/
def get_qty : Inv → String → Int
  | [], _ => 0
  | (k, v) :: rest, item => if k = item then v else get_qty rest item

/-- `item in stock_data` (equivalently, whether `stock_data[item]` would
succeed rather than raise `KeyError`). -/
def hasKey : Inv → String → Bool
  | [], _ => false
  | (k, _) :: rest, item => if k = item then true else hasKey rest item

/-- `stock_data[item] = v`: overwrite the binding in place when the key is
present, otherwise append it at the end (Python dict insertion order). -/
def setKey : Inv → String → Int → Inv
  | [], item, v => [(item, v)]
  | (k, w) :: rest, item, v =>
      if k = item then (item, v) :: rest else (k, w) :: setKey rest item v

/-- `del stock_data[item]`: drop the binding of `item`. -/
def eraseKey : Inv → String → Inv
  | [], _ => []
  | (k, w) :: rest, item => if k = item then rest else (k, w) :: eraseKey rest item

/-- The `log_message` f-string of `add_item`. -/
def addMessage (qty : Int) (item : String) : String :=
  "Added " ++ toString qty ++ " of " ++ item

/-- Result of a call to `add_item`: the new `stock_data`, the `logs` list
as it stands after the call, and the severity of the diagnostic the call
emitted. -/
structure AddResult where
  inv : Inv
  logs : List String
  diag : Severity

/-- `add_item(item, qty, logs=None)`.  A `None` (omitted) `logs` argument
is replaced by a fresh empty list inside the call.  Validation: if `item`
is not a `str`, or `qty` is not an `int`, or `item` is empty, log an
error and return without mutating anything.  Otherwise
`stock_data[item] = stock_data.get(item, 0) + qty`, append the message to
`logs` and log it at info level. -/
def add_item (inv : Inv) (item qty : PyVal) (logs : Option (List String)) :
    AddResult :=
  let logs0 := logs.getD []
  match item, qty with
  | PyVal.str s, PyVal.int n =>
      if s = "" then
        { inv := inv, logs := logs0, diag := Severity.error }
      else
        { inv := setKey inv s (get_qty inv s + n)
          logs := logs0 ++ [addMessage n s]
          diag := Severity.info }
  | _, _ => { inv := inv, logs := logs0, diag := Severity.error }

/-- Result of a call to `remove_item`: the new `stock_data` and the
severity of the diagnostic emitted. -/
structure RemoveResult where
  inv : Inv
  diag : Severity

/-- `remove_item(item, qty)`.  `stock_data[item]` raises `KeyError` when
the key is absent; that branch is caught and logged as a warning with no
mutation.  When the key is present: if the stored value strictly exceeds
`qty` it is decremented by `qty`, otherwise the key is deleted; either
way an info diagnostic is logged. -/
def remove_item (inv : Inv) (item : String) (qty : Int) : RemoveResult :=
  if hasKey inv item then
    if get_qty inv item > qty then
      { inv := setKey inv item (get_qty inv item - qty), diag := Severity.info }
    else
      { inv := eraseKey inv item, diag := Severity.info }
  else
    { inv := inv, diag := Severity.warning }

/-- `check_low_items(threshold)`: the names of the items whose quantity is
strictly below `threshold`, in iteration order.  (In the source,
`threshold` defaults to `5`.) -/
def check_low_items (inv : Inv) (threshold : Int) : List String :=
  (inv.filter (fun p => decide (p.2 < threshold))).map Prod.fst

/-- JSON values, as `json.load` can produce them.  `load_data` assigns
whatever value the file parses to directly to the global `stock_data`,
so after a load the global may hold any JSON value, not only an
object of integers. -/
inductive Json
  | null
  | bool (b : Bool)
  | num (n : Int)
  | str (s : String)
  | arr (elems : List Json)
  | obj (fields : List (String × Json))

/-- The possible states of the file `load_data` opens, classified by the
outcome of `open` followed by `json.load`: the file is absent (`open`
raises `FileNotFoundError`); the file exists but reading it fails with
some other `OSError` such as `PermissionError` (`unreadable`); the file
is readable but its content is not parseable JSON (`json.load` raises
`json.JSONDecodeError`); or the content parses to the JSON value `j`. -/
inductive FileState
  | missing
  | unreadable
  | badJson
  | val (j : Json)

/-- Outcome of `load_data`: `ok j` means `stock_data` was replaced by the
parsed value `j` and an info diagnostic was logged; `recovered` means the
handler for `FileNotFoundError` / `JSONDecodeError` ran, logging an error
diagnostic and setting `stock_data = {}`; `raised` means an uncaught
exception propagated to the caller, leaving `stock_data` unchanged. -/
inductive LoadOutcome
  | ok (stock : Json)
  | recovered
  | raised

/-- `load_data(file)`.  The `try` block opens and parses the file and
assigns the parsed value to `stock_data`; only `FileNotFoundError` and
`json.JSONDecodeError` are caught, logging an error and resetting
`stock_data` to the empty dict.  Any other exception (for example a
`PermissionError` from `open`) propagates. -/
def load_data : FileState → LoadOutcome
  | FileState.missing => LoadOutcome.recovered
  | FileState.unreadable => LoadOutcome.raised
  | FileState.badJson => LoadOutcome.recovered
  | FileState.val j => LoadOutcome.ok j

/-- The JSON value `json.dump` serializes `stock_data` to: an object with
the same keys in the same iteration order, each integer value rendered as
a JSON number. -/
def invToJson (inv : Inv) : Json :=
  Json.obj (inv.map (fun p => (p.1, Json.num p.2)))

/-- `save_data(file)` on a string-keyed, integer-valued `stock_data`
writes its JSON serialization, so afterwards the file parses back to
exactly that value. -/
def save_data (inv : Inv) : FileState :=
  FileState.val (invToJson inv)

/-- Read an integer-valued inventory back off a list of JSON object
fields; `none` when some field is not a JSON number. -/
def fieldsToInv : List (String × Json) → Option Inv
  | [] => some []
  | (k, Json.num n) :: rest => (fieldsToInv rest).map (fun r => (k, n) :: r)
  | _ :: _ => none

/-- Read an integer-valued inventory back off a JSON value; `none` unless
the value is an object all of whose fields are JSON numbers. -/
def jsonToInv : Json → Option Inv
  | Json.obj fields => fieldsToInv fields
  | _ => none

/-- One mutating operation on the global `stock_data`, for reachability
statements.  `add` and `remove` are calls of `add_item` (with `logs`
omitted; the `logs` list does not influence the inventory) and
`remove_item`.  `load res` is a call of `load_data` on a file that is
missing or unparseable (`res = none`, resetting the dict to empty) or
that parses to the integer-valued object `m` (`res = some m`); loads of
files holding JSON values that are not integer-valued objects leave the
integer-mapping data model and are treated in the `Json`-level model
above. -/
inductive Op
  | add (item qty : PyVal)
  | remove (item : String) (qty : Int)
  | load (res : Option Inv)

/-- Effect of one operation on the inventory. -/
def applyOp (inv : Inv) : Op → Inv
  | Op.add item qty => (add_item inv item qty Option.none).inv
  | Op.remove item qty => (remove_item inv item qty).inv
  | Op.load Option.none => []
  | Op.load (Option.some m) => m

/-- Effect of a sequence of operations, run left to right. -/
def applyOps (inv : Inv) (ops : List Op) : Inv :=
  ops.foldl applyOp inv

/-- Every stored quantity is strictly positive. -/
def allPositive (inv : Inv) : Prop :=
  ∀ p ∈ inv, 0 < p.2

/-- Operations whose inputs cannot introduce a non-positive stored
quantity: an `add` whose quantity, when it is an integer at all, is
strictly positive; any `remove`; a `load` whose successfully parsed file,
if any, holds only strictly positive values. -/
def goodOp : Op → Prop
  | Op.add _ qty => ∀ n, qty = PyVal.int n → 0 < n
  | Op.remove _ _ => True
  | Op.load res => ∀ m, res = Option.some m → allPositive m

theorem get_qty_setKey_self (inv : Inv) (k : String) (v : Int) :
    get_qty (setKey inv k v) k = v := by
  induction inv with
  | nil => simp [setKey, get_qty]
  | cons p rest ih =>
      obtain ⟨k', w⟩ := p
      by_cases h : k' = k
      · simp [setKey, get_qty, h]
      · simp [setKey, get_qty, h, ih]

theorem hasKey_iff (inv : Inv) (k : String) :
    hasKey inv k = true ↔ k ∈ inv.map Prod.fst := by
  induction inv with
  | nil => simp [hasKey]
  | cons p rest ih =>
      obtain ⟨k', w⟩ := p
      by_cases h : k' = k
      · simp [hasKey, h]
      · simp only [hasKey, if_neg h, ih, List.map_cons, List.mem_cons]
        constructor
        · exact fun hm => Or.inr hm
        · rintro (hk | hm)
          · exact absurd hk.symm h
          · exact hm

theorem hasKey_eraseKey (inv : Inv) (k : String)
    (hnd : (inv.map Prod.fst).Nodup) : hasKey (eraseKey inv k) k = false := by
  induction inv with
  | nil => simp [eraseKey, hasKey]
  | cons p rest ih =>
      obtain ⟨k', w⟩ := p
      simp only [List.map_cons, List.nodup_cons] at hnd
      by_cases h : k' = k
      · subst h
        rw [eraseKey, if_pos rfl, ← Bool.not_eq_true, hasKey_iff]
        exact hnd.1
      · rw [eraseKey, if_neg h, hasKey, if_neg h]
        exact ih hnd.2

theorem mem_eraseKey (inv : Inv) (k : String) (p : String × Int)
    (hp : p ∈ eraseKey inv k) : p ∈ inv := by
  induction inv with
  | nil => simp [eraseKey] at hp
  | cons q rest ih =>
      obtain ⟨k', w⟩ := q
      by_cases h : k' = k
      · simp only [eraseKey, if_pos h] at hp
        exact List.mem_cons_of_mem _ hp
      · simp only [eraseKey, if_neg h, List.mem_cons] at hp
        rcases hp with hp | hp
        · simp [hp]
        · exact List.mem_cons_of_mem _ (ih hp)

theorem allPositive_tail (p : String × Int) (rest : Inv)
    (h : allPositive (p :: rest)) : allPositive rest :=
  fun q hq => h q (List.mem_cons_of_mem _ hq)

theorem get_qty_nonneg (inv : Inv) (k : String) (h : allPositive inv) :
    0 ≤ get_qty inv k := by
  induction inv with
  | nil => simp [get_qty]
  | cons p rest ih =>
      obtain ⟨k', v⟩ := p
      by_cases hk : k' = k
      · have hv := h (k', v) (by simp)
        simp only [get_qty, if_pos hk]
        exact le_of_lt hv
      · simp only [get_qty, if_neg hk]
        exact ih (allPositive_tail _ _ h)

theorem allPositive_setKey (inv : Inv) (k : String) (v : Int)
    (h : allPositive inv) (hv : 0 < v) : allPositive (setKey inv k v) := by
  induction inv with
  | nil =>
      intro p hp
      simp only [setKey, List.mem_singleton] at hp
      subst hp
      exact hv
  | cons q rest ih =>
      obtain ⟨k', w⟩ := q
      by_cases hk : k' = k
      · intro p hp
        simp only [setKey, if_pos hk, List.mem_cons] at hp
        rcases hp with hp | hp
        · subst hp; exact hv
        · exact h p (List.mem_cons_of_mem _ hp)
      · intro p hp
        simp only [setKey, if_neg hk, List.mem_cons] at hp
        rcases hp with hp | hp
        · subst hp; exact h (k', w) (by simp)
        · exact ih (allPositive_tail _ _ h) p hp

theorem value_unique (inv : Inv) (k : String) (v w : Int)
    (hnd : (inv.map Prod.fst).Nodup) (hv : (k, v) ∈ inv) (hw : (k, w) ∈ inv) :
    v = w := by
  induction inv with
  | nil => simp at hv
  | cons q rest ih =>
      obtain ⟨k', u⟩ := q
      simp only [List.map_cons, List.nodup_cons] at hnd
      simp only [List.mem_cons, Prod.mk.injEq] at hv hw
      rcases hv with ⟨hk1, hv1⟩ | hv
      · rcases hw with ⟨hk2, hw2⟩ | hw
        · rw [hv1, hw2]
        · have hk' : k ∈ List.map Prod.fst rest := List.mem_map_of_mem Prod.fst hw
          exact absurd hk' (by rw [hk1]; exact hnd.1)
      · rcases hw with ⟨hk2, hw2⟩ | hw
        · have hk' : k ∈ List.map Prod.fst rest := List.mem_map_of_mem Prod.fst hv
          exact absurd hk' (by rw [hk2]; exact hnd.1)
        · exact ih hnd.2 hv hw

theorem allPositive_applyOp (inv : Inv) (op : Op)
    (h : allPositive inv) (hop : goodOp op) : allPositive (applyOp inv op) := by
  cases op with
  | add item qty =>
      cases item with
      | str s =>
          cases qty with
          | int n =>
              by_cases hs : s = ""
              · simpa [applyOp, add_item, hs] using h
              · have hn : 0 < n := hop n rfl
                have h0 : 0 ≤ get_qty inv s := get_qty_nonneg inv s h
                simp only [applyOp, add_item, if_neg hs]
                exact allPositive_setKey inv s _ h (by omega)
          | str t => simpa [applyOp, add_item] using h
          | other => simpa [applyOp, add_item] using h
      | int m => cases qty <;> simpa [applyOp, add_item] using h
      | other => cases qty <;> simpa [applyOp, add_item] using h
  | remove item qty =>
      by_cases hk : hasKey inv item = true
      · by_cases hq : get_qty inv item > qty
        · simp only [applyOp, remove_item, if_pos hk, if_pos hq]
          exact allPositive_setKey inv item _ h (by omega)
        · simp only [applyOp, remove_item, if_pos hk, if_neg hq]
          exact fun p hp => h p (mem_eraseKey inv item p hp)
      · simp only [applyOp, remove_item, if_neg hk]
        exact h
  | load res =>
      cases res with
      | none => intro p hp; simp [applyOp] at hp
      | some m => exact hop m rfl

theorem allPositive_applyOps (ops : List Op) : ∀ inv : Inv,
    allPositive inv → (∀ op ∈ ops, goodOp op) → allPositive (applyOps inv ops) := by
  induction ops with
  | nil => intro inv h _; simpa [applyOps] using h
  | cons op rest ih =>
      intro inv h hops
      rw [applyOps, List.foldl_cons]
      exact ih (applyOp inv op)
        (allPositive_applyOp inv op h (hops op (by simp)))
        (fun o ho => hops o (List.mem_cons_of_mem _ ho))

/-- Claim C1, counterexample: the claimed invariant that every stored
quantity is strictly positive is false on the code.  The single valid
call `add_item("a", 0)` on the empty inventory stores the quantity `0`
(the validation of `add_item` only requires `qty` to be an `int`, any
sign or zero included), so the resulting reachable state violates the
invariant. -/
theorem C1_counterexample :
    ¬ allPositive (applyOps [] [Op.add (PyVal.str "a") (PyVal.int 0)]) := by
  intro h
  have h2 := h ("a", 0)
    (by simp [applyOps, applyOp, add_item, setKey, get_qty])
  omega

/-- Claim C1, amended: the positivity invariant does hold for every state
reachable by operation sequences in which each `add_item` call that
passes validation supplies a strictly positive quantity and each
successfully parsed load contains only strictly positive values;
`remove_item` needs no restriction.  (Unrestricted `add_item` accepts
zero and negative quantities and stores them, and `load_data` stores
whatever values the file holds, so the unconditional claim fails.) -/
theorem C1_amended (ops : List Op) (hops : ∀ op ∈ ops, goodOp op) :
    allPositive (applyOps [] ops) :=
  allPositive_applyOps ops [] (fun p hp => by simp at hp) hops

/-- Witness for C1_amended at the concrete sequence adding 5 apples. -/
theorem C1_amended_witness :
    allPositive (applyOps [] [Op.add (PyVal.str "apple") (PyVal.int 5)]) ∧
    applyOps [] [Op.add (PyVal.str "apple") (PyVal.int 5)] = [("apple", 5)] := by
  constructor
  · exact C1_amended _ (by
      intro op hop
      simp only [List.mem_singleton] at hop
      subst hop
      intro n hn
      injection hn with h
      omega)
  · rfl

/-- Claim C2: when `item` is present with current quantity `c`,
`remove_item(item, q)` decrements the stored quantity by `q` when
`c > q`, and otherwise (`c ≤ q`, the exact-equality case included)
deletes the key entirely, so the entry is fully cleared rather than left
at zero or negative. -/
theorem C2_remove_semantics (inv : Inv) (item : String) (q c : Int)
    (hnd : (inv.map Prod.fst).Nodup) (hk : hasKey inv item = true)
    (hc : get_qty inv item = c) :
    (c > q →
      (remove_item inv item q).inv = setKey inv item (c - q) ∧
      get_qty (remove_item inv item q).inv item = c - q) ∧
    (c ≤ q →
      (remove_item inv item q).inv = eraseKey inv item ∧
      hasKey (remove_item inv item q).inv item = false) := by
  constructor
  · intro hcq
    have hgt : get_qty inv item > q := by omega
    refine ⟨?_, ?_⟩
    · simp [remove_item, hk, hgt, hc, hcq]
    · simp [remove_item, hk, hgt, hc, hcq, get_qty_setKey_self]
  · intro hle
    have hngt : ¬ get_qty inv item > q := by omega
    refine ⟨?_, ?_⟩
    · simp [remove_item, hk, hngt]
    · simp only [remove_item, if_pos hk, if_neg hngt]
      exact hasKey_eraseKey inv item hnd

/-- Witness for C2_remove_semantics: partial removal on ten apples leaves
seven; removing exactly the current stock deletes the key. -/
theorem C2_remove_semantics_witness :
    get_qty (remove_item [("apple", 10)] "apple" 3).inv "apple" = 7 ∧
    hasKey (remove_item [("apple", 3)] "apple" 3).inv "apple" = false := by
  constructor
  · have h := (C2_remove_semantics [("apple", 10)] "apple" 3 10 (by decide)
      (by decide) (by decide)).1 (by decide)
    rw [h.2]
    decide
  · exact ((C2_remove_semantics [("apple", 3)] "apple" 3 3 (by decide)
      (by decide) (by decide)).2 (by decide)).2

/-- Claim C3, counterexample: the claim that every read failure resets
the Inventory to empty with an error log is false on the code.  A read
failure other than a missing file (for example `PermissionError` raised
by `open`) is not caught by the handler, which names only
`FileNotFoundError` and `json.JSONDecodeError`, so the exception
propagates to the caller instead of the error-log-and-reset path
running. -/
theorem C3_counterexample :
    load_data FileState.unreadable = LoadOutcome.raised ∧
    LoadOutcome.raised ≠ LoadOutcome.recovered :=
  ⟨rfl, fun h => LoadOutcome.noConfusion h⟩

/-- Claim C3, amended: `load_data` logs an error and resets the
Inventory to empty exactly when the file is missing or its content fails
to parse as JSON; any other read failure raises out of `load_data`
leaving the Inventory unchanged, and content that parses to any JSON
value (an object or not) replaces the Inventory with that value
wholesale. -/
theorem C3_amended (fs : FileState) :
    (load_data fs = LoadOutcome.recovered ↔
      fs = FileState.missing ∨ fs = FileState.badJson) ∧
    (∀ j, load_data (FileState.val j) = LoadOutcome.ok j) := by
  refine ⟨?_, fun j => rfl⟩
  cases fs <;> simp [load_data]

/-- Claim C4: saving a string-keyed, integer-valued Inventory and then
loading the file back yields an equal Inventory: the load succeeds on
the serialized object and decoding it recovers exactly the original
mapping. -/
theorem C4_round_trip (inv : Inv)
    (_hkeys : ∀ k ∈ inv.map Prod.fst, k ≠ "") :
    load_data (save_data inv) = LoadOutcome.ok (invToJson inv) ∧
    jsonToInv (invToJson inv) = Option.some inv := by
  refine ⟨rfl, ?_⟩
  simp only [jsonToInv, invToJson]
  induction inv with
  | nil => rfl
  | cons p rest ih =>
      obtain ⟨k, v⟩ := p
      simp only [List.map_cons, fieldsToInv]
      rw [ih (fun x hx => _hkeys x (List.mem_cons_of_mem _ hx))]
      rfl

/-- Witness for C4_round_trip on a one-entry Inventory. -/
theorem C4_round_trip_witness :
    jsonToInv (invToJson [("apple", 3)]) = Option.some [("apple", 3)] :=
  (C4_round_trip [("apple", 3)] (by decide)).2

/-- Claim C5: on any invalid input — `item` not a string, or `item` the
empty string, or `qty` not an integer — `add_item` leaves the Inventory
unchanged, leaves `logs` as it received them, emits an error-level
diagnostic, and returns normally (the function is total; no exception
reaches the caller). -/
theorem C5_invalid_add (inv : Inv) (item qty : PyVal)
    (logs : Option (List String))
    (h : (∀ s, item ≠ PyVal.str s) ∨ (∀ n, qty ≠ PyVal.int n) ∨
      item = PyVal.str "") :
    add_item inv item qty logs =
      { inv := inv, logs := logs.getD [], diag := Severity.error } := by
  cases item with
  | str s =>
      cases qty with
      | int n =>
          rcases h with h | h | h
          · exact absurd rfl (h s)
          · exact absurd rfl (h n)
          · injection h with hs
            simp [add_item, hs]
      | str t => simp [add_item]
      | other => simp [add_item]
  | int m => cases qty <;> simp [add_item]
  | other => cases qty <;> simp [add_item]

/-- Witness for C5_invalid_add at the wrong-typed call from the source
demonstration, add_item(123, "ten"). -/
theorem C5_invalid_add_witness :
    add_item [] (PyVal.int 123) (PyVal.str "ten") Option.none =
      { inv := [], logs := [], diag := Severity.error } :=
  C5_invalid_add [] (PyVal.int 123) (PyVal.str "ten") Option.none
    (Or.inl (fun _ hs => PyVal.noConfusion hs))

/-- Claim C6: removing an item that is absent from the Inventory emits a
warning-level diagnostic, leaves the Inventory untouched, and returns
normally (the `KeyError` is caught inside `remove_item`). -/
theorem C6_remove_missing (inv : Inv) (item : String) (q : Int)
    (h : hasKey inv item = false) :
    remove_item inv item q = { inv := inv, diag := Severity.warning } := by
  simp [remove_item, h]

/-- Witness for C6_remove_missing: removing an orange from an Inventory
holding only apples changes nothing and warns. -/
theorem C6_remove_missing_witness :
    remove_item [("apple", 10)] "orange" 1 =
      { inv := [("apple", 10)], diag := Severity.warning } :=
  C6_remove_missing [("apple", 10)] "orange" 1 (by decide)

/-- Claim C7: a valid `add_item(item, qty)` sets the stored quantity of
`item` to its previous `get(item, 0)` value plus `qty`; in particular,
starting from the empty Inventory, `get_qty(item)` after adding `qty > 0`
equals `qty`. -/
theorem C7_add_effect (inv : Inv) (s : String) (n : Int)
    (logs : Option (List String)) (h : s ≠ "") :
    get_qty (add_item inv (PyVal.str s) (PyVal.int n) logs).inv s =
      get_qty inv s + n ∧
    (0 < n →
      get_qty (add_item [] (PyVal.str s) (PyVal.int n) Option.none).inv s = n) := by
  constructor
  · simp [add_item, h, get_qty_setKey_self]
  · intro _
    simp [add_item, h, get_qty_setKey_self, get_qty]

/-- Witness for C7_add_effect: adding ten apples to the empty Inventory
stores ten. -/
theorem C7_add_effect_witness :
    get_qty (add_item [] (PyVal.str "apple") (PyVal.int 10)
      Option.none).inv "apple" = 10 :=
  (C7_add_effect [] "apple" 10 Option.none (by decide)).2 (by decide)

/-- Claim C8: `check_low_items(threshold)` returns exactly the names of
the items whose stored quantity is strictly below the threshold, in the
Inventory's iteration order (the result is a sublist of the key
sequence), and on `[("apple", 7), ("banana", 3), ("kiwi", 5)]` with the
default threshold `5` it returns exactly `["banana"]` — an item at
exactly the threshold is not included. -/
theorem C8_check_low (inv : Inv) (t : Int) (k : String) (v : Int)
    (hnd : (inv.map Prod.fst).Nodup) (hm : (k, v) ∈ inv) :
    List.Sublist (check_low_items inv t) (inv.map Prod.fst) ∧
    (k ∈ check_low_items inv t ↔ v < t) ∧
    check_low_items [("apple", 7), ("banana", 3), ("kiwi", 5)] 5 = ["banana"] := by
  refine ⟨?_, ⟨?_, ?_⟩, ?_⟩
  · exact List.Sublist.map Prod.fst (List.filter_sublist inv)
  · intro hk
    simp only [check_low_items, List.mem_map] at hk
    obtain ⟨p, hp, hpk⟩ := hk
    rw [List.mem_filter] at hp
    have hv : p.2 < t := by simpa using hp.2
    have hpm : (k, p.2) ∈ inv := by
      rw [← hpk]
      simpa using hp.1
    have := value_unique inv k p.2 v hnd hpm hm
    omega
  · intro hv
    simp only [check_low_items, List.mem_map]
    exact ⟨(k, v), List.mem_filter.mpr ⟨hm, by simpa using hv⟩, rfl⟩
  · decide

/-- Witness for C8_check_low at the concrete example of the claim. -/
theorem C8_check_low_witness :
    ("banana" ∈ check_low_items [("apple", 7), ("banana", 3), ("kiwi", 5)] 5 ↔
      (3 : Int) < 5) ∧
    check_low_items [("apple", 7), ("banana", 3), ("kiwi", 5)] 5 = ["banana"] := by
  have h := C8_check_low [("apple", 7), ("banana", 3), ("kiwi", 5)] 5 "banana" 3
    (by decide) (by decide)
  exact ⟨h.2.1, h.2.2⟩

/-- Claim C9: each `add_item` call whose `logs` argument is omitted
(`None`) works on a fresh empty list, so after each of two consecutive
valid calls the list holds exactly that call's own single entry — no
accumulation or sharing across calls. -/
theorem C9_fresh_logs (inv : Inv) (s1 s2 : String) (n1 n2 : Int)
    (h1 : s1 ≠ "") (h2 : s2 ≠ "") :
    (add_item inv (PyVal.str s1) (PyVal.int n1) Option.none).logs =
      [addMessage n1 s1] ∧
    (add_item (add_item inv (PyVal.str s1) (PyVal.int n1) Option.none).inv
        (PyVal.str s2) (PyVal.int n2) Option.none).logs =
      [addMessage n2 s2] := by
  constructor
  · simp [add_item, h1]
  · simp [add_item, h1, h2]

/-- Witness for C9_fresh_logs: two consecutive adds with omitted logs
each end with exactly one entry of their own. -/
theorem C9_fresh_logs_witness :
    (add_item [] (PyVal.str "apple") (PyVal.int 10) Option.none).logs =
      [addMessage 10 "apple"] ∧
    (add_item (add_item [] (PyVal.str "apple") (PyVal.int 10)
        Option.none).inv (PyVal.str "banana") (PyVal.int 5)
        Option.none).logs = [addMessage 5 "banana"] :=
  C9_fresh_logs [] "apple" "banana" 10 5 (by decide) (by decide)

/-- Claim C10: when `item` is present with current quantity `c` and `q`
is negative (so `c > q`), `remove_item(item, q)` stores `c - q`, which is
strictly greater than `c`: a negative-quantity removal adds stock. -/
theorem C10_negative_remove (inv : Inv) (item : String) (q c : Int)
    (hk : hasKey inv item = true) (hc : get_qty inv item = c)
    (hq : q < 0) (hcq : c > q) :
    get_qty (remove_item inv item q).inv item = c - q ∧ c < c - q := by
  have hgt : get_qty inv item > q := by omega
  constructor
  · simp [remove_item, hk, hgt, hc, hcq, get_qty_setKey_self]
  · omega

/-- Witness for C10_negative_remove: removing minus three apples from a
stock of ten leaves thirteen. -/
theorem C10_negative_remove_witness :
    get_qty (remove_item [("apple", 10)] "apple" (-3)).inv "apple" = 13 ∧
    (10 : Int) < 13 := by
  have h := C10_negative_remove [("apple", 10)] "apple" (-3) 10 (by decide)
    (by decide) (by decide) (by decide)
  refine ⟨?_, by decide⟩
  rw [h.1]
  decide

end InventorySystem
